import Mathlib

/-!
Verification development for the bisheng text-trace / OAuth subsystem.

The development shallowly embeds:
* the three OAuth tables of
  `src/backend/bisheng/database/migration/oauth_tables.sql` together with the
  uniqueness constraints their keys declare, as a small database state with
  constraint-checking insert operations;
* the authorization-code and preview-token single-use redemption discipline,
  the hybrid text-matching ranker and the authorize/text-trace endpoints,
  modelled from the specification (the backend python implementation is not
  part of this source snapshot);
* the frontend landing redirect of
  `src/frontend/platform/src/pages/AdminLanding.tsx` and the registration
  validation of `src/frontend/platform/src/pages/LoginPage/login.tsx`.

Timestamps are modelled as natural numbers (seconds); matcher scores as
rationals in `[0, 1]`.
-/

namespace Bisheng

/-! ### Database rows, from `oauth_tables.sql` -/

/-- Row of table `oauth_application` (oauth_tables.sql lines 10-22).
`status`: 1 = active, 0 = disabled. -/
structure AppRow where
  id : String
  name : String
  clientId : String
  clientSecret : String
  redirectUri : String
  userId : Int
  status : Int
  createTime : Nat
  updateTime : Nat
  deriving DecidableEq, Repr

/-- Row of table `oauth_authorization_code` (oauth_tables.sql lines 29-38). -/
structure CodeRow where
  code : String
  clientId : String
  userId : Int
  redirectUri : String
  expiresAt : Nat
  createTime : Nat
  deriving DecidableEq, Repr

/-- Row of table `oauth_token` (oauth_tables.sql lines 45-57). -/
structure TokenRow where
  id : String
  accessToken : String
  refreshToken : String
  clientId : String
  userId : Int
  expiresAt : Nat
  createTime : Nat
  deriving DecidableEq, Repr

/-- The credential store state: the three OAuth tables. -/
structure DB where
  apps : List AppRow
  codes : List CodeRow
  tokens : List TokenRow
  deriving DecidableEq, Repr

/-- The empty database (state after running the migration script). -/
def DB.empty : DB := ⟨[], [], []⟩

/-- INSERT into `oauth_application`.  Fails (as MySQL does) when the PRIMARY
KEY `id` or the UNIQUE KEY `uk_client_id` would be violated. -/
def insertApplication (db : DB) (r : AppRow) : Option DB :=
  if db.apps.any (fun a => a.id == r.id || a.clientId == r.clientId) then none
  else some { db with apps := r :: db.apps }

/-- INSERT into `oauth_authorization_code`.  Fails when the PRIMARY KEY
`code` would be violated. -/
def insertCode (db : DB) (r : CodeRow) : Option DB :=
  if db.codes.any (fun c => c.code == r.code) then none
  else some { db with codes := r :: db.codes }

/-- INSERT into `oauth_token`.  Fails when the PRIMARY KEY `id`, the UNIQUE
KEY `uk_access_token` or the UNIQUE KEY `uk_refresh_token` would be
violated. -/
def insertToken (db : DB) (r : TokenRow) : Option DB :=
  if db.tokens.any (fun t =>
      t.id == r.id || t.accessToken == r.accessToken ||
      t.refreshToken == r.refreshToken) then none
  else some { db with tokens := r :: db.tokens }

/-- DELETE FROM `oauth_authorization_code` WHERE code = value. -/
def deleteCode (db : DB) (code : String) : DB :=
  { db with codes := db.codes.filter (fun c => !(c.code == code)) }

/-- DELETE FROM `oauth_token` WHERE id = value. -/
def deleteToken (db : DB) (id : String) : DB :=
  { db with tokens := db.tokens.filter (fun t => !(t.id == id)) }

/-- DELETE FROM `oauth_application` WHERE id = value. -/
def deleteApplication (db : DB) (id : String) : DB :=
  { db with apps := db.apps.filter (fun a => !(a.id == id)) }

/-- States reachable from the freshly migrated database by successful
inserts and deletes on the three OAuth tables. -/
inductive Reachable : DB → Prop
  | empty : Reachable DB.empty
  | insertApp {db db' : DB} {r : AppRow} :
      Reachable db → insertApplication db r = some db' → Reachable db'
  | insertCd {db db' : DB} {r : CodeRow} :
      Reachable db → insertCode db r = some db' → Reachable db'
  | insertTok {db db' : DB} {r : TokenRow} :
      Reachable db → insertToken db r = some db' → Reachable db'
  | deleteCd {db : DB} (code : String) :
      Reachable db → Reachable (deleteCode db code)
  | deleteTok {db : DB} (id : String) :
      Reachable db → Reachable (deleteToken db id)
  | deleteApp {db : DB} (id : String) :
      Reachable db → Reachable (deleteApplication db id)

/-! ### Authorization-code redemption

Modelled from the spec: `redeemAuthorizationCode(code) ->
(clientId, userId, redirectUri) | NotFound` must atomically look up and
delete the code row; expired or already-consumed codes are indistinguishable
from non-existent ones (NotFound); expiry is evaluated against the clock at
lookup time.  The backend service implementation is not in this source
snapshot, only its `oauth_authorization_code` table. -/

/-- Atomic redemption of an authorization code: a single state transition
that looks up the row, checks expiry at lookup time, and deletes the row on
success.  Returns `none` (NotFound) for missing, expired or already-consumed
codes. -/
def redeemAuthorizationCode (db : DB) (code : String) (now : Nat) :
    Option CodeRow × DB :=
  match db.codes.find? (fun c => c.code == code) with
  | none => (none, db)
  | some r =>
      if now ≤ r.expiresAt then (some r, deleteCode db code)
      else (none, db)

/-- A serialized sequence of redemption attempts on the same code, one clock
reading per attempt.  Because each redemption is a single atomic transition,
any concurrent execution of redemptions is equivalent to one such
sequence. -/
def redeemMany (db : DB) (code : String) :
    List Nat → List (Option CodeRow) × DB
  | [] => ([], db)
  | t :: ts =>
      let step := redeemAuthorizationCode db code t
      let rest := redeemMany step.2 code ts
      (step.1 :: rest.1, rest.2)

/-- Errors of the OAuth token endpoint. -/
inductive TokenError
  | invalid_request
  | invalid_client
  | invalid_token
  deriving DecidableEq, Repr

/-- Modelled from the spec: the `authorization_code` grant of the token
endpoint redeems the code through the credential store and surfaces
`NotFound` as `invalid_request`. -/
def tokenExchangeCode (db : DB) (code : String) (now : Nat) :
    Except TokenError (CodeRow × DB) :=
  match redeemAuthorizationCode db code now with
  | (none, _) => .error .invalid_request
  | (some r, db') => .ok (r, db')

/-! ### The authorize endpoint

Modelled from the spec: `authorize(clientId, redirectUri, state)` validates
that the client exists, is active, and that `redirectUri` exactly
string-matches the registered URI (no prefix or wildcard matching); only
then, on user approval, is an authorization code issued (expiry
issued-at + 5 minutes). -/

/-- Outcome of an authorize request. -/
inductive AuthorizeResult
  | err (e : TokenError)
  | redirectCode (code state : String)
  | redirectDenied (state : String)
  deriving DecidableEq, Repr

/-- Lifetime of an authorization code: 5 minutes. -/
def codeTTL : Nat := 5 * 60

/-- Modelled from the spec: the authorize endpoint.  `newCode` stands for
the high-entropy code value drawn by the server; validation failures reject
the request before touching the code table. -/
def authorize (db : DB) (clientId redirectUri state : String)
    (userApproves : Bool) (newCode : String) (now : Nat) :
    AuthorizeResult × DB :=
  match db.apps.find? (fun a => a.clientId == clientId) with
  | none => (.err .invalid_client, db)
  | some app =>
      if app.status ≠ 1 then (.err .invalid_client, db)
      else if redirectUri ≠ app.redirectUri then (.err .invalid_request, db)
      else if userApproves then
        let row : CodeRow :=
          { code := newCode, clientId := clientId, userId := app.userId,
            redirectUri := redirectUri, expiresAt := now + codeTTL,
            createTime := now }
        match insertCode db row with
        | some db' => (.redirectCode newCode state, db')
        | none => (.err .invalid_request, db)
      else (.redirectDenied state, db)

/-! ### The hybrid text-matching ranker

Modelled from the spec (§4.4-§4.6) and the design document's matching logic
(exact first; when its count is short of top_k, supplement with semantic
results; deduplicate, then sort by score; exact-origin candidates get a
fixed +0.1 score boost in hybrid mode).  The matchers themselves are
external collaborators: the ranker is parametrized by their result lists. -/

/-- Which matcher produced a candidate. -/
inductive MatcherKind
  | exact
  | semantic
  deriving DecidableEq, Repr

/-- A transient match result unit.  `spanStart`/`spanEnd` is the matched
span; `spanStart` is the earliest match offset used as tie-break. -/
structure MatchCandidate where
  docId : Nat
  kbId : Nat
  score : ℚ
  spanStart : Nat
  spanEnd : Nat
  kind : MatcherKind
  deriving DecidableEq, Repr

/-- Ranking order: score descending, ties broken by document id then by
earliest match offset. -/
def rankLE (a b : MatchCandidate) : Prop :=
  b.score < a.score ∨
    (a.score = b.score ∧
      (a.docId < b.docId ∨ (a.docId = b.docId ∧ a.spanStart ≤ b.spanStart)))

instance : DecidableRel rankLE := by
  intro a b
  unfold rankLE
  infer_instance

instance : IsTotal MatchCandidate rankLE := by
  constructor
  intro a b
  unfold rankLE
  rcases lt_trichotomy a.score b.score with h | h | h
  · exact Or.inr (Or.inl h)
  · rcases lt_trichotomy a.docId b.docId with h2 | h2 | h2
    · exact Or.inl (Or.inr ⟨h, Or.inl h2⟩)
    · rcases Nat.le_total a.spanStart b.spanStart with h3 | h3
      · exact Or.inl (Or.inr ⟨h, Or.inr ⟨h2, h3⟩⟩)
      · exact Or.inr (Or.inr ⟨h.symm, Or.inr ⟨h2.symm, h3⟩⟩)
    · exact Or.inr (Or.inr ⟨h.symm, Or.inl h2⟩)
  · exact Or.inl (Or.inl h)

instance : IsTrans MatchCandidate rankLE := by
  constructor
  intro a b c hab hbc
  unfold rankLE at *
  rcases hab with h1 | ⟨h1, h1'⟩ <;> rcases hbc with h2 | ⟨h2, h2'⟩
  · exact Or.inl (h2.trans h1)
  · exact Or.inl (h2 ▸ h1)
  · exact Or.inl (h1 ▸ h2)
  · refine Or.inr ⟨h1.trans h2, ?_⟩
    rcases h1' with h3 | ⟨h3, h3'⟩ <;> rcases h2' with h4 | ⟨h4, h4'⟩
    · exact Or.inl (h3.trans h4)
    · exact Or.inl (h4 ▸ h3)
    · exact Or.inl (h3 ▸ h4)
    · exact Or.inr ⟨h3.trans h4, Nat.le_trans h3' h4'⟩

/-- Keep only candidates whose score meets the threshold (`≥`, so a score
exactly at the threshold passes). -/
def thresholdFilter (th : ℚ) (cs : List MatchCandidate) : List MatchCandidate :=
  cs.filter (fun c => th ≤ c.score)

/-- Sort by the ranking order and truncate to `topK`. -/
def rankAndTruncate (topK : Nat) (cs : List MatchCandidate) :
    List MatchCandidate :=
  (List.insertionSort rankLE cs).take topK

/-- Single-matcher ranking: threshold filter, sort, truncate. -/
def rankSingle (cs : List MatchCandidate) (th : ℚ) (topK : Nat) :
    List MatchCandidate :=
  rankAndTruncate topK (thresholdFilter th cs)

/-- The fixed +0.1 exact-match score boost of hybrid mode, applied to
exact-origin candidates only. -/
def boostExact (c : MatchCandidate) : MatchCandidate :=
  if c.kind = .exact then { c with score := c.score + 1/10 } else c

/-- Two candidates conflict when they refer to the same document and their
spans overlap. -/
def conflict (a b : MatchCandidate) : Bool :=
  a.docId == b.docId && a.spanStart ≤ b.spanEnd && b.spanStart ≤ a.spanEnd

/-- Deduplication: earlier-listed candidates win, so listing the
exact-origin candidates first makes exact win over semantic on conflict. -/
def dedup : List MatchCandidate → List MatchCandidate
  | [] => []
  | c :: cs => c :: dedup (cs.filter (fun d => !(conflict c d)))
termination_by l => l.length
decreasing_by
  simpa using Nat.lt_succ_of_le (List.length_filter_le _ _)

/-- Hybrid-mode merge.  When the exact matcher already supplies `topK`
candidates the semantic results are not consulted; otherwise up to
`topK − exactCount` semantic candidates supplement the boosted exact
candidates, followed by deduplication, threshold filtering, sorting and
truncation. -/
def matchHybrid (exactR semanticR : List MatchCandidate) (topK : Nat)
    (th : ℚ) : List MatchCandidate :=
  if topK ≤ exactR.length then rankSingle exactR th topK
  else
    let sem := semanticR.take (topK - exactR.length)
    let merged := exactR.map boostExact ++ sem
    rankAndTruncate topK (thresholdFilter th (dedup merged))

/-- The three matching modes of the text-trace API. -/
inductive MatchMode
  | exact
  | semantic
  | hybrid
  deriving DecidableEq, Repr

/-- The operation `match(text, scope, mode, topK, threshold)`, parametrized by the two
matcher result lists. -/
def matchRank (mode : MatchMode) (exactR semanticR : List MatchCandidate)
    (topK : Nat) (th : ℚ) : List MatchCandidate :=
  match mode with
  | .exact => rankSingle exactR th topK
  | .semantic => rankSingle semanticR th topK
  | .hybrid => matchHybrid exactR semanticR topK th

/-! ### The text-trace endpoint

Modelled from the spec: request validation (empty text, non-positive top_k,
threshold outside [0,1] are `invalid_request`), matchers restricted to the
caller's knowledge-base scope, empty scope yields an empty match list with a
success response. -/

/-- Errors of the open API. -/
inductive ApiError
  | invalid_request
  | invalid_token
  | internal_error
  deriving DecidableEq, Repr

/-- A successful text-trace response body. -/
structure TraceResponse where
  «matches» : List MatchCandidate
  total : Nat
  deriving DecidableEq, Repr

/-- The exact matcher adapter: delegates to the external full-text index
(`index`), restricted to the scope's knowledge bases, returning at most
`topK` candidates. -/
def findExact (index : String → List MatchCandidate) (text : String)
    (scope : List Nat) (topK : Nat) : List MatchCandidate :=
  ((index text).filter (fun c => scope.contains c.kbId)).take topK

/-- The semantic matcher adapter: delegates to the external vector index
(`vindex`), restricted to the scope's knowledge bases, returning at most
`topK` candidates. -/
def findSemantic (vindex : String → List MatchCandidate) (text : String)
    (scope : List Nat) (topK : Nat) : List MatchCandidate :=
  ((vindex text).filter (fun c => scope.contains c.kbId)).take topK

/-- The text-trace endpoint: validates the request, then runs the matchers
restricted to `scope` and ranks their results.  `topK` is an integer so the
`topK ≤ 0` validation is expressible. -/
def textTrace (index vindex : String → List MatchCandidate)
    (scope : List Nat) (text : String) (mode : MatchMode) (topK : Int)
    (th : ℚ) : Except ApiError TraceResponse :=
  if text.isEmpty then .error .invalid_request
  else if topK ≤ 0 then .error .invalid_request
  else if th < 0 ∨ 1 < th then .error .invalid_request
  else
    let k := topK.toNat
    let res :=
      match mode with
      | .exact => rankSingle (findExact index text scope k) th k
      | .semantic => rankSingle (findSemantic vindex text scope k) th k
      | .hybrid =>
          let ex := findExact index text scope k
          matchHybrid ex (findSemantic vindex text scope (k - ex.length)) k th
    .ok ⟨res, res.length⟩

/-! ### Preview tokens

Modelled from the spec: `issue(documentId, highlightLocator, userId) ->
token` and `redeem(token) -> (documentId, highlightLocator) |
Expired | AlreadyUsed | NotFound`; tokens live 30 minutes from issuance and
are single-use, invalidated on first successful use or at expiry. -/

/-- A stored preview-token record. -/
structure PreviewRec where
  docId : Nat
  locator : List Nat
  userId : Int
  issuedAt : Nat
  used : Bool
  deriving DecidableEq, Repr

/-- The preview-token store: token value ↦ record. -/
def PreviewStore := List (String × PreviewRec)

/-- Result of redeeming a preview token. -/
inductive RedeemResult
  | ok (docId : Nat) (locator : List Nat)
  | expired
  | alreadyUsed
  | notFound
  deriving DecidableEq, Repr

/-- Lifetime of a preview token: 30 minutes. -/
def previewTTL : Nat := 30 * 60

/-- Issue a preview token: mint a record valid 30 minutes from `now`. -/
def issuePreview (st : PreviewStore) (tok : String) (docId : Nat)
    (locator : List Nat) (userId : Int) (now : Nat) : PreviewStore :=
  (tok, ⟨docId, locator, userId, now, false⟩) :: st

/-- Atomic single-use redemption of a preview token: expiry is checked
against the clock at lookup time; an unexpired, unused token is consumed
(marked used) in the same transition. -/
def redeemPreview (st : PreviewStore) (tok : String) (now : Nat) :
    RedeemResult × PreviewStore :=
  match st.find? (fun e => e.1 == tok) with
  | none => (.notFound, st)
  | some e =>
      if e.2.issuedAt + previewTTL < now then (.expired, st)
      else if e.2.used then (.alreadyUsed, st)
      else (.ok e.2.docId e.2.locator,
            st.map (fun p =>
              if p.1 == tok then (p.1, { p.2 with used := true }) else p))

/-! ### AdminLanding redirect, from `AdminLanding.tsx` -/

/-- The frontend user as AdminLanding consumes it: a role string and the
`web_menu` permission list. -/
structure FrontUser where
  role : String
  web_menu : List String
  deriving DecidableEq, Repr

/-- The helper `hasMenu` of AdminLanding.tsx line 17: a menu is accessible when it is
in `web_menu` or the role is `admin`. -/
def hasMenu (u : FrontUser) (m : String) : Bool :=
  u.web_menu.contains m || u.role == "admin"

/-- The admin-role test `isAdmin` of AdminLanding.tsx line 16. -/
def isAdminRole (u : FrontUser) : Bool :=
  u.role == "admin" || u.role == "group_admin"

/-- The navigation effect of AdminLanding's useEffect (AdminLanding.tsx
lines 13-34): `none` when no user is loaded (no navigation), otherwise the
single target of the if/else-if chain. -/
def adminLandingTarget : Option FrontUser → Option String
  | none => none
  | some u =>
      some (if hasMenu u "build" then "/build/apps"
        else if hasMenu u "knowledge" then "/filelib"
        else if hasMenu u "model" then "/model/management"
        else if hasMenu u "evaluation" then "/evaluation"
        else if isAdminRole u then "/log"
        else "/label")

/-- The fixed priority order of menu permissions and their landing routes. -/
def menuPriority : List (String × String) :=
  [("build", "/build/apps"), ("knowledge", "/filelib"),
   ("model", "/model/management"), ("evaluation", "/evaluation")]

/-- The landing route as the claim phrases it: the first matching target of
the priority order, then `/log` for admin or group_admin roles, `/label`
otherwise. -/
def landingSpec (u : FrontUser) : String :=
  match menuPriority.find? (fun p => hasMenu u p.1) with
  | some p => p.2
  | none => if isAdminRole u then "/log" else "/label"

/-! ### Registration validation, from `login.tsx` -/

/-- What `handleRegister` does after collecting validation errors: either
show a warning message with the error list or call the register API. -/
inductive RegisterAction
  | warn (errs : List String)
  | callRegister
  deriving DecidableEq, Repr

/-- JavaScript line terminators, which `.` in a regex does not match. -/
def lineTerminator (c : Char) : Bool :=
  c == '\n' || c == '\r' || c == '\u2028' || c == '\u2029'

/-- Whether some run of at least 8 consecutive non-line-terminator
characters occurs, continuing a current run of length `run`: the test
performed by the regex `/.\x7b8,\x7d/` of login.tsx line 101. -/
def hasDotRun8 : List Char → Nat → Bool
  | [], run => 8 ≤ run
  | c :: cs, run =>
      if 8 ≤ run then true
      else if lineTerminator c then hasDotRun8 cs 0
      else hasDotRun8 cs (run + 1)

/-- The test `/.\x7b8,\x7d/.test(pwd)` of login.tsx line 101. -/
def jsDotTest8 (s : String) : Bool := hasDotRun8 s.data 0

/-- The validation error list collected by `handleRegister` (login.tsx
lines 92-119), in push order.  `pwdRule` abstracts the `PWD_RULE` regex
imported from `./utils`, which is outside this source snapshot. -/
def registerErrors (mail pwd apwd : String) (userCaptcha : Bool)
    (captcha : String) (pwdRule : String → Bool) : List String :=
  (if mail.isEmpty then ["login.pleaseEnterAccount"] else []) ++
  (if mail.length < 3 then ["login.accountTooShort"] else []) ++
  (if !jsDotTest8 pwd then ["login.passwordTooShort"] else []) ++
  (if !pwdRule pwd then ["login.passwordError"] else []) ++
  (if pwd ≠ apwd then ["login.passwordMismatch"] else []) ++
  (if userCaptcha && captcha.isEmpty then ["login.pleaseEnterCaptcha"] else [])

/-- The control flow of `handleRegister`: when any validation error was
collected, show the warning and stop; otherwise call the register API. -/
def handleRegister (mail pwd apwd : String) (userCaptcha : Bool)
    (captcha : String) (pwdRule : String → Bool) : RegisterAction :=
  let errs := registerErrors mail pwd apwd userCaptcha captcha pwdRule
  if errs.isEmpty then .callRegister else .warn errs

/-! ## Theorems -/

/-- Concrete application row used in witnesses. -/
def appW1 : AppRow :=
  { id := "app-1", name := "Demo", clientId := "cid-1", clientSecret := "h1",
    redirectUri := "https://app.example.com/cb", userId := 1, status := 1,
    createTime := 0, updateTime := 0 }

/-- Second concrete application row used in witnesses. -/
def appW2 : AppRow :=
  { id := "app-2", name := "Demo2", clientId := "cid-2", clientSecret := "h2",
    redirectUri := "https://other.example.com/cb", userId := 2, status := 1,
    createTime := 0, updateTime := 0 }

/-- Concrete token row used in witnesses. -/
def tokW1 : TokenRow :=
  { id := "tok-1", accessToken := "at-1", refreshToken := "rt-1",
    clientId := "cid-1", userId := 1, expiresAt := 7200, createTime := 0 }

/-- Concrete token row used in witnesses. -/
def tokW2 : TokenRow :=
  { id := "tok-2", accessToken := "at-2", refreshToken := "rt-2",
    clientId := "cid-2", userId := 2, expiresAt := 7200, createTime := 0 }

/-- C2: in every reachable credential-store state, registered applications
have pairwise distinct client ids, and token records have pairwise distinct
access-token values and pairwise distinct refresh-token values. -/
theorem reachable_unique_credentials (db : DB) (h : Reachable db) :
    db.apps.Pairwise (fun a b => a.clientId ≠ b.clientId) ∧
    db.tokens.Pairwise (fun a b => a.accessToken ≠ b.accessToken) ∧
    db.tokens.Pairwise (fun a b => a.refreshToken ≠ b.refreshToken) := by
  induction h with
  | empty => simp [DB.empty]
  | @insertApp db db' r _ heq ih =>
      simp only [insertApplication] at heq
      split at heq
      · exact absurd heq (by simp)
      · next hcond =>
          cases heq
          refine ⟨?_, ih.2.1, ih.2.2⟩
          simp only [List.any_eq_true, Bool.or_eq_true, beq_iff_eq,
            not_exists, not_and, not_or] at hcond
          exact List.Pairwise.cons
            (fun a ha hne => (hcond a ha).2 hne.symm) ih.1
  | @insertCd db db' r _ heq ih =>
      simp only [insertCode] at heq
      split at heq
      · exact absurd heq (by simp)
      · cases heq; exact ih
  | @insertTok db db' r _ heq ih =>
      simp only [insertToken] at heq
      split at heq
      · exact absurd heq (by simp)
      · next hcond =>
          cases heq
          simp only [List.any_eq_true, Bool.or_eq_true, beq_iff_eq,
            not_exists, not_and, not_or] at hcond
          refine ⟨ih.1, ?_, ?_⟩
          · exact List.Pairwise.cons
              (fun t ht hne => (hcond t ht).1.2 hne.symm) ih.2.1
          · exact List.Pairwise.cons
              (fun t ht hne => (hcond t ht).2 hne.symm) ih.2.2
  | deleteCd code _ ih =>
      exact ⟨ih.1, ih.2.1, ih.2.2⟩
  | deleteTok id _ ih =>
      exact ⟨ih.1, ih.2.1.filter _, ih.2.2.filter _⟩
  | deleteApp id _ ih =>
      exact ⟨ih.1.filter _, ih.2.1, ih.2.2⟩

/-- Witness for C2: a state reached by registering two applications and
issuing two token pairs satisfies the uniqueness invariant. -/
theorem reachable_unique_credentials_witness :
    (⟨[appW2, appW1], [], [tokW2, tokW1]⟩ : DB).apps.Pairwise
      (fun a b => a.clientId ≠ b.clientId) ∧
    (⟨[appW2, appW1], [], [tokW2, tokW1]⟩ : DB).tokens.Pairwise
      (fun a b => a.accessToken ≠ b.accessToken) ∧
    (⟨[appW2, appW1], [], [tokW2, tokW1]⟩ : DB).tokens.Pairwise
      (fun a b => a.refreshToken ≠ b.refreshToken) := by
  refine reachable_unique_credentials _ ?_
  have h1 : insertApplication DB.empty appW1 = some ⟨[appW1], [], []⟩ := by
    decide
  have h2 : insertApplication ⟨[appW1], [], []⟩ appW2 =
      some ⟨[appW2, appW1], [], []⟩ := by decide
  have h3 : insertToken ⟨[appW2, appW1], [], []⟩ tokW1 =
      some ⟨[appW2, appW1], [], [tokW1]⟩ := by decide
  have h4 : insertToken ⟨[appW2, appW1], [], [tokW1]⟩ tokW2 =
      some ⟨[appW2, appW1], [], [tokW2, tokW1]⟩ := by decide
  exact Reachable.insertTok
    (Reachable.insertTok
      (Reachable.insertApp (Reachable.insertApp Reachable.empty h1) h2) h3) h4

/-- After a deletion of `code`, no row with that code value remains. -/
theorem find?_deleteCode (db : DB) (code : String) :
    (deleteCode db code).codes.find? (fun c => c.code == code) = none := by
  rw [show (deleteCode db code).codes
      = db.codes.filter (fun c => !(c.code == code)) from rfl,
    List.find?_eq_none]
  intro c hc
  simpa using (List.mem_filter.1 hc).2

/-- A code that is absent stays absent: every redemption attempt returns
NotFound and leaves the store unchanged. -/
theorem redeemMany_absent (db : DB) (code : String) (ts : List Nat)
    (h : db.codes.find? (fun c => c.code == code) = none) :
    (redeemMany db code ts).1 = List.replicate ts.length none ∧
    (redeemMany db code ts).2 = db := by
  induction ts with
  | nil => simp [redeemMany]
  | cons t ts ih =>
      simp only [redeemMany, redeemAuthorizationCode, h, List.length_cons,
        List.replicate_succ]
      exact ⟨by rw [ih.1], ih.2⟩

/-- A successful redemption deletes the code row. -/
theorem redeem_success_deletes (db : DB) (code : String) (t : Nat)
    (r : CodeRow) (db2 : DB)
    (h : redeemAuthorizationCode db code t = (some r, db2)) :
    db2 = deleteCode db code := by
  unfold redeemAuthorizationCode at h
  split at h
  · simp at h
  · split at h
    · injection h with h1 h2
      exact h2.symm
    · simp at h

/-- C1: redemption of an authorization code is single-use.  For any
serialized sequence of redemption attempts on one code (the serialization
justified by the atomicity of each attempt): at most one attempt ever
succeeds; when the code is present and unexpired at the first attempt, the
first attempt succeeds and every later attempt observes NotFound; and after
a successful redemption the token endpoint surfaces the NotFound of a
replayed exchange as `invalid_request`. -/
theorem authorization_code_single_redemption (db : DB) (code : String) :
    (∀ ts : List Nat,
      ((redeemMany db code ts).1.countP (fun o => o.isSome)) ≤ 1) ∧
    (∀ r t ts, db.codes.find? (fun c => c.code == code) = some r →
      t ≤ r.expiresAt →
      (redeemMany db code (t :: ts)).1 =
        some r :: List.replicate ts.length none) ∧
    (∀ t t' r db2, redeemAuthorizationCode db code t = (some r, db2) →
      tokenExchangeCode db2 code t' = .error .invalid_request) := by
  refine ⟨?_, ?_, ?_⟩
  · intro ts
    induction ts generalizing db with
    | nil => simp [redeemMany]
    | cons t ts ih =>
        rcases hstep : redeemAuthorizationCode db code t with ⟨o, db2⟩
        cases o with
        | none =>
            simpa [redeemMany, hstep] using ih db2
        | some r =>
            have hdb2 : db2 = deleteCode db code :=
              redeem_success_deletes db code t r db2 hstep
            have hrest := redeemMany_absent db2 code ts
              (hdb2 ▸ find?_deleteCode db code)
            simp only [redeemMany, hstep, List.countP_cons, hrest.1]
            have : (List.replicate ts.length
                (none : Option CodeRow)).countP (fun o => o.isSome) = 0 := by
              rw [List.countP_eq_zero]
              intro a ha
              rw [List.eq_of_mem_replicate ha]
              simp
            simp [this]
  · intro r t ts hfind hexp
    have hstep : redeemAuthorizationCode db code t =
        (some r, deleteCode db code) := by
      unfold redeemAuthorizationCode
      rw [hfind]
      simp [hexp]
    have hrest := redeemMany_absent (deleteCode db code) code ts
      (find?_deleteCode db code)
    simp [redeemMany, hstep, hrest.1]
  · intro t t' r db2 h
    have hdb2 : db2 = deleteCode db code :=
      redeem_success_deletes db code t r db2 h
    simp [tokenExchangeCode, redeemAuthorizationCode, hdb2,
      find?_deleteCode db code]

/-- Concrete authorization-code row used in witnesses. -/
def codeW : CodeRow :=
  { code := "code-1", clientId := "cid-1", userId := 1,
    redirectUri := "https://app.example.com/cb", expiresAt := 300,
    createTime := 0 }

/-- Concrete store holding one authorization code, used in witnesses. -/
def dbC1 : DB := ⟨[], [codeW], []⟩

/-- Witness for C1: with one stored code, two redemption attempts produce at
most one success, the pattern success-then-NotFound, and a replayed exchange
after the success is surfaced as `invalid_request`. -/
theorem authorization_code_single_redemption_witness :
    ((redeemMany dbC1 "code-1" [10, 20]).1.countP (fun o => o.isSome) ≤ 1) ∧
    ((redeemMany dbC1 "code-1" (10 :: [20])).1 =
      some codeW :: List.replicate 1 none) ∧
    (tokenExchangeCode (deleteCode dbC1 "code-1") "code-1" 20 =
      .error .invalid_request) := by
  obtain ⟨h1, h2, h3⟩ := authorization_code_single_redemption dbC1 "code-1"
  exact ⟨h1 [10, 20], h2 codeW 10 [20] (by decide) (by decide),
    h3 10 20 codeW (deleteCode dbC1 "code-1") (by decide)⟩

/-- C6: whenever the requested redirect URI differs from the URI registered
for the client (in particular for any prefix extension of it), the
authorize endpoint rejects the request with an error and the code table is
untouched — no authorization code is issued. -/
theorem authorize_requires_exact_redirect (db : DB)
    (clientId redirectUri state newCode : String) (approve : Bool)
    (now : Nat)
    (h : ∀ app, db.apps.find? (fun a => a.clientId == clientId) = some app →
      redirectUri ≠ app.redirectUri) :
    (∃ e, (authorize db clientId redirectUri state approve newCode now).1 =
      .err e) ∧
    (authorize db clientId redirectUri state approve newCode now).2 = db := by
  rcases hfind : db.apps.find? (fun a => a.clientId == clientId)
    with _ | app
  · have heq : authorize db clientId redirectUri state approve newCode now =
        (.err .invalid_client, db) := by
      unfold authorize
      rw [hfind]
    rw [heq]
    exact ⟨⟨.invalid_client, rfl⟩, rfl⟩
  · have hne := h app hfind
    by_cases hs : app.status ≠ 1
    · have heq : authorize db clientId redirectUri state approve newCode now =
          (.err .invalid_client, db) := by
        unfold authorize
        rw [hfind]
        simp [hs]
      rw [heq]
      exact ⟨⟨.invalid_client, rfl⟩, rfl⟩
    · have heq : authorize db clientId redirectUri state approve newCode now =
          (.err .invalid_request, db) := by
        unfold authorize
        rw [hfind]
        simp [hs, hne]
      rw [heq]
      exact ⟨⟨.invalid_request, rfl⟩, rfl⟩

/-- Witness for C6, Scenario D: the client is registered with redirect URI
`https://app.example.com/cb` and requests authorization with the prefix
extension `https://app.example.com/cb/evil`; the request errors and no code
is issued. -/
theorem authorize_requires_exact_redirect_witness :
    (∃ e, (authorize (⟨[appW1], [], []⟩ : DB) "cid-1"
      "https://app.example.com/cb/evil" "st" true "code-x" 0).1 = .err e) ∧
    (authorize (⟨[appW1], [], []⟩ : DB) "cid-1"
      "https://app.example.com/cb/evil" "st" true "code-x" 0).2 =
      (⟨[appW1], [], []⟩ : DB) := by
  refine authorize_requires_exact_redirect _ _ _ _ _ _ _ ?_
  intro app happ
  have h1 : (⟨[appW1], [], []⟩ : DB).apps.find?
      (fun a => a.clientId == "cid-1") = some appW1 := by decide
  rw [h1] at happ
  cases happ
  decide

/-- Every candidate surviving the threshold filter, ranking and truncation
has score at least the threshold. -/
theorem score_le_of_mem_rank (topK : Nat) (th : ℚ) (l : List MatchCandidate)
    (c : MatchCandidate) (hc : c ∈ rankAndTruncate topK (thresholdFilter th l)) :
    th ≤ c.score := by
  have h1 := List.mem_of_mem_take hc
  have h2 := (List.mem_insertionSort rankLE).1 h1
  have h3 := (List.mem_filter.1 h2).2
  simpa using h3

/-- The ranked, truncated list is sorted by score descending. -/
theorem rank_sorted (topK : Nat) (cs : List MatchCandidate) :
    (rankAndTruncate topK cs).Pairwise (fun a b => b.score ≤ a.score) := by
  have hs : List.Sorted rankLE (List.insertionSort rankLE cs) :=
    List.sorted_insertionSort rankLE cs
  have himp : (List.insertionSort rankLE cs).Pairwise
      (fun a b => b.score ≤ a.score) := by
    refine hs.imp ?_
    intro a b hab
    rcases hab with h | ⟨h, _⟩
    · exact le_of_lt h
    · exact le_of_eq h.symm
  exact List.Pairwise.sublist (List.take_sublist _ _) himp

/-- Length of the ranked, truncated list. -/
theorem rank_length (topK : Nat) (cs : List MatchCandidate) :
    (rankAndTruncate topK cs).length = min topK cs.length := by
  simp [rankAndTruncate]

/-- An exact-origin candidate with score 0, below any positive threshold. -/
def cLow : MatchCandidate := ⟨1, 1, 0, 0, 5, .exact⟩

/-- Counterexample to C3 as stated: in hybrid mode the exact matcher
returns `topK = 1` candidate, the semantic matcher is indeed not consulted,
yet the returned list does not contain exactly `topK` candidates, because
the candidate is below the threshold. -/
theorem hybrid_shortcircuit_cex :
    1 ≤ ([cLow] : List MatchCandidate).length ∧
    (matchRank .hybrid [cLow] [] 1 (7/10)).length ≠ 1 := by
  refine ⟨by simp, ?_⟩
  have h : matchRank .hybrid [cLow] [] 1 (7/10) = [] := by
    norm_num [matchRank, matchHybrid, rankSingle, rankAndTruncate,
      thresholdFilter, cLow, List.insertionSort]
  rw [h]
  simp

/-- C3 (amended): in hybrid mode, whenever the exact matcher returns at
least `topK` candidates, the semantic results are never consulted and the
returned list contains exactly `min topK` (count of exact candidates at or
above the threshold) candidates, sorted descending by score. -/
theorem hybrid_shortcircuit (ex sem sem' : List MatchCandidate)
    (topK : Nat) (th : ℚ) (h : topK ≤ ex.length) :
    matchRank .hybrid ex sem topK th = matchRank .hybrid ex sem' topK th ∧
    (matchRank .hybrid ex sem topK th).length =
      min topK (thresholdFilter th ex).length ∧
    (matchRank .hybrid ex sem topK th).Pairwise
      (fun a b => b.score ≤ a.score) := by
  have he : matchRank .hybrid ex sem topK th = rankSingle ex th topK := by
    simp [matchRank, matchHybrid, h]
  have he' : matchRank .hybrid ex sem' topK th = rankSingle ex th topK := by
    simp [matchRank, matchHybrid, h]
  refine ⟨he.trans he'.symm, ?_, ?_⟩
  · rw [he]
    exact rank_length _ _
  · rw [he]
    exact rank_sorted _ _

/-- High-scoring exact candidates used in ranker witnesses. -/
def cHi1 : MatchCandidate := ⟨1, 1, 9/10, 0, 5, .exact⟩

/-- Second high-scoring exact candidate used in ranker witnesses. -/
def cHi2 : MatchCandidate := ⟨2, 1, 8/10, 0, 5, .exact⟩

/-- A semantic candidate used in ranker witnesses. -/
def cSem : MatchCandidate := ⟨3, 2, 1, 0, 5, .semantic⟩

/-- Witness for C3 (amended): with two above-threshold exact candidates and
`topK = 2`, the hybrid result ignores the semantic list, has exactly two
candidates and is sorted descending. -/
theorem hybrid_shortcircuit_witness :
    matchRank .hybrid [cHi1, cHi2] [cSem] 2 (7/10) =
      matchRank .hybrid [cHi1, cHi2] [] 2 (7/10) ∧
    (matchRank .hybrid [cHi1, cHi2] [cSem] 2 (7/10)).length =
      min 2 (thresholdFilter (7/10) [cHi1, cHi2]).length ∧
    (matchRank .hybrid [cHi1, cHi2] [cSem] 2 (7/10)).Pairwise
      (fun a b => b.score ≤ a.score) :=
  hybrid_shortcircuit [cHi1, cHi2] [cSem] [] 2 (7/10) (by simp)

/-- An exact-origin candidate with raw score 0.65, just under the default
threshold 0.7. -/
def cBoost : MatchCandidate := ⟨1, 1, 13/20, 0, 5, .exact⟩

/-- C4: the hybrid +0.1 exact boost is applied before the threshold filter,
so an exact candidate with raw score 0.65 < 0.7 surfaces in the hybrid
result for threshold 0.7, carrying its boosted score 0.75. -/
theorem hybrid_boost_surfaces_subthreshold :
    cBoost.score < 7/10 ∧
    7/10 ≤ cBoost.score + 1/10 ∧
    matchRank .hybrid [cBoost] [] 2 (7/10) =
      [{ cBoost with score := cBoost.score + 1/10 }] := by
  refine ⟨by norm_num [cBoost], by norm_num [cBoost], ?_⟩
  norm_num [matchRank, matchHybrid, rankSingle, rankAndTruncate,
    thresholdFilter, dedup, boostExact, conflict, cBoost,
    List.insertionSort, List.orderedInsert]

/-- Exact candidate at score 0.9 used for the threshold boundary claims. -/
def cA : MatchCandidate := ⟨1, 1, 9/10, 0, 5, .exact⟩

/-- Exact candidate at score exactly 0.7 used for the threshold boundary
claims. -/
def cB : MatchCandidate := ⟨2, 1, 7/10, 0, 5, .exact⟩

/-- Counterexample to C7 as stated: a candidate whose score is exactly the
threshold is not always included in the result of `match` — here topK
truncation drops it in favour of a higher-scoring candidate. -/
theorem threshold_inclusion_cex :
    cB.score = 7/10 ∧
    matchRank .exact [cA, cB] [] 1 (7/10) = [cA] ∧
    cB ∉ ([cA] : List MatchCandidate) := by
  refine ⟨by norm_num [cB], ?_, ?_⟩
  · norm_num [matchRank, rankSingle, rankAndTruncate, thresholdFilter,
      cA, cB, List.insertionSort, List.orderedInsert, rankLE]
  · simp [cA, cB]

/-- C7 (amended): in every mode, every returned candidate's (final) score
is at least the threshold — a candidate strictly below it is excluded — and
a candidate with score exactly equal to the threshold passes the threshold
filter: it is returned whenever topK truncation leaves room for all
filtered candidates. -/
theorem threshold_boundary (ex sem : List MatchCandidate) (topK : Nat)
    (th : ℚ) :
    (∀ mode, ∀ c ∈ matchRank mode ex sem topK th, th ≤ c.score) ∧
    ((thresholdFilter th ex).length ≤ topK →
      ∀ c ∈ ex, c.score = th → c ∈ matchRank .exact ex sem topK th) := by
  constructor
  · intro mode c hc
    cases mode with
    | exact => exact score_le_of_mem_rank _ _ _ _ hc
    | semantic => exact score_le_of_mem_rank _ _ _ _ hc
    | hybrid =>
        have hc' : c ∈ matchHybrid ex sem topK th := hc
        unfold matchHybrid at hc'
        split at hc'
        · exact score_le_of_mem_rank _ _ _ _ hc'
        · exact score_le_of_mem_rank _ _ _ _ hc'
  · intro hlen c hcmem hcth
    have hfil : c ∈ thresholdFilter th ex := by
      simp [thresholdFilter, List.mem_filter, hcmem, hcth]
    have hsortmem : c ∈ List.insertionSort rankLE (thresholdFilter th ex) :=
      (List.mem_insertionSort rankLE).2 hfil
    have hall : (List.insertionSort rankLE (thresholdFilter th ex)).take topK
        = List.insertionSort rankLE (thresholdFilter th ex) := by
      apply List.take_of_length_le
      rw [List.length_insertionSort]
      exact hlen
    show c ∈ rankAndTruncate topK (thresholdFilter th ex)
    unfold rankAndTruncate
    rw [hall]
    exact hsortmem

/-- Witness for C7 (amended): with threshold 0.7 and room in topK, the
candidate at score exactly 0.7 is included, and membership implies the
score bound. -/
theorem threshold_boundary_witness :
    (7/10 : ℚ) ≤ cA.score ∧
    cB ∈ matchRank .exact [cA, cB] [] 5 (7/10) := by
  obtain ⟨h1, h2⟩ := threshold_boundary [cA, cB] [] 5 (7/10)
  refine ⟨h1 .exact cA ?_, h2 ?_ cB (by simp) (by norm_num [cB])⟩
  · have h : matchRank .exact [cA, cB] [] 5 (7/10) = [cA, cB] := by
      norm_num [matchRank, rankSingle, rankAndTruncate, thresholdFilter,
        cA, cB, List.insertionSort, List.orderedInsert, rankLE]
    rw [h]
    simp
  · norm_num [thresholdFilter, cA, cB]

/-- C8: a well-formed text-trace request (non-empty text, positive top_k,
threshold in [0,1]) made with an empty knowledge-base scope succeeds with
an empty match list and total 0, in every mode — not an error. -/
theorem empty_scope_trace (index vindex : String → List MatchCandidate)
    (text : String) (mode : MatchMode) (topK : Int) (th : ℚ)
    (h1 : text.isEmpty = false) (h2 : 0 < topK) (h3 : 0 ≤ th)
    (h4 : th ≤ 1) :
    textTrace index vindex [] text mode topK th = .ok ⟨[], 0⟩ := by
  have h2' : ¬(topK ≤ 0) := not_le.2 h2
  have h34 : ¬(th < 0 ∨ 1 < th) := by
    push_neg
    exact ⟨h3, h4⟩
  have hk : ¬(topK.toNat ≤ 0) := by omega
  cases mode <;>
    simp [textTrace, h1, h2', h34, hk, findExact, findSemantic, rankSingle,
      rankAndTruncate, thresholdFilter, matchHybrid, dedup]

/-- An external index returning one candidate in knowledge base 42, used in
the empty-scope witness. -/
def idxW : String → List MatchCandidate := fun _ => [⟨1, 42, 9/10, 0, 5, .exact⟩]

/-- Witness for C8: a hybrid request over a non-empty index but an empty
scope returns the empty success response. -/
theorem empty_scope_trace_witness :
    textTrace idxW idxW [] "hello" .hybrid 10 (7/10) = .ok ⟨[], 0⟩ :=
  empty_scope_trace idxW idxW "hello" .hybrid 10 (7/10) (by decide)
    (by decide) (by norm_num) (by norm_num)

/-- Marking a token used preserves its position for lookups: afterwards the
lookup finds the consumed record. -/
theorem find?_markUsed (st : PreviewStore) (tok : String) (r : PreviewRec)
    (h : st.find? (fun e => e.1 == tok) = some (tok, r)) :
    (st.map (fun p =>
        if p.1 == tok then (p.1, { p.2 with used := true }) else p)).find?
      (fun e => e.1 == tok) = some (tok, { r with used := true }) := by
  induction st with
  | nil => simp at h
  | cons p st ih =>
      rcases p with ⟨k, q⟩
      rw [List.find?_cons] at h
      rw [List.map_cons]
      by_cases hp : k = tok
      · have hb : (((k, q) : String × PreviewRec).1 == tok) = true := by
          simp [hp]
        simp only [hb] at h
        injection h with h'
        have hq : q = r := congrArg Prod.snd h'
        rw [if_pos hb, List.find?_cons]
        have hb2 : (((((k, q) : String × PreviewRec).1,
            { q with used := true }) : String × PreviewRec).1 == tok) = true := hb
        simp only [hb2]
        simp [hp, hq]
      · have hb : (((k, q) : String × PreviewRec).1 == tok) = false := by
          simp [hp]
        simp only [hb] at h
        rw [if_neg (by simp [hp])]
        rw [List.find?_cons]
        simp only [hb]
        exact ih h

/-- C5: preview tokens are single-use and time-limited.  Redeeming a fresh
token within its 30-minute window succeeds, and a second redemption of the
same token within the window observes `AlreadyUsed`; redeeming any token
after issued-at + 30 minutes observes `Expired`. -/
theorem preview_token_single_use (st : PreviewStore) (tok : String)
    (r : PreviewRec) :
    (∀ t1 t2, st.find? (fun e => e.1 == tok) = some (tok, r) →
      r.used = false → t1 ≤ r.issuedAt + previewTTL →
      t2 ≤ r.issuedAt + previewTTL →
      (redeemPreview st tok t1).1 = .ok r.docId r.locator ∧
      (redeemPreview (redeemPreview st tok t1).2 tok t2).1 =
        .alreadyUsed) ∧
    (∀ t, st.find? (fun e => e.1 == tok) = some (tok, r) →
      r.issuedAt + previewTTL < t → (redeemPreview st tok t).1 = .expired) := by
  constructor
  · intro t1 t2 hfind hused h1 h2
    have hstep : redeemPreview st tok t1 =
        (.ok r.docId r.locator,
          st.map (fun p =>
            if p.1 == tok then (p.1, { p.2 with used := true }) else p)) := by
      unfold redeemPreview
      rw [hfind]
      simp [not_lt.2 h1, hused]
    refine ⟨by rw [hstep], ?_⟩
    rw [hstep]
    have hfind2 := find?_markUsed st tok r hfind
    unfold redeemPreview
    rw [hfind2]
    simp [not_lt.2 h2]
  · intro t hfind hexp
    unfold redeemPreview
    rw [hfind]
    simp [hexp]

/-- Concrete preview-token record used in witnesses (issued at time 100). -/
def prevW : PreviewRec := ⟨7, [3, 9], 2, 100, false⟩

/-- Concrete preview-token store used in witnesses. -/
def pstW : PreviewStore := [("ptok-1", prevW)]

/-- Witness for C5: the stored token redeems once at t=200, a second
attempt at t=300 observes AlreadyUsed, and a fresh attempt at t=1901
(past 100 + 30 min) observes Expired. -/
theorem preview_token_single_use_witness :
    ((redeemPreview pstW "ptok-1" 200).1 = .ok prevW.docId prevW.locator ∧
     (redeemPreview (redeemPreview pstW "ptok-1" 200).2 "ptok-1" 300).1 =
       .alreadyUsed) ∧
    (redeemPreview pstW "ptok-1" 1901).1 = .expired := by
  obtain ⟨h1, h2⟩ := preview_token_single_use pstW "ptok-1" prevW
  exact ⟨h1 200 300 (by decide) (by decide) (by decide) (by decide),
    h2 1901 (by decide) (by decide)⟩

set_option maxRecDepth 4000 in
/-- C9: AdminLanding navigates exactly once for a loaded user — to the
first matching target of the fixed priority order, with `/log` for admin or
group_admin roles and `/label` otherwise as fallbacks — in particular a
user with role `admin` always lands on `/build/apps`; with no user loaded
no navigation occurs. -/
theorem admin_landing_nav :
    adminLandingTarget none = none ∧
    (∀ u, adminLandingTarget (some u) = some (landingSpec u)) ∧
    (∀ u, u.role = "admin" →
      adminLandingTarget (some u) = some "/build/apps") := by
  refine ⟨rfl, ?_, ?_⟩
  · intro u
    unfold adminLandingTarget landingSpec menuPriority
    rw [List.find?_cons, List.find?_cons, List.find?_cons, List.find?_cons]
    cases h1 : hasMenu u "build" <;> cases h2 : hasMenu u "knowledge" <;>
      cases h3 : hasMenu u "model" <;> cases h4 : hasMenu u "evaluation" <;>
        simp [h1, h2, h3, h4]
  · intro u hu
    have hb : hasMenu u "build" = true := by simp [hasMenu, hu]
    simp [adminLandingTarget, hb]

/-- Witness for C9: an admin with no explicit menus lands on `/build/apps`;
the navigation target of a group_admin equals the priority-order target. -/
theorem admin_landing_nav_witness :
    adminLandingTarget (some ⟨"admin", []⟩) = some "/build/apps" ∧
    adminLandingTarget (some ⟨"group_admin", []⟩) =
      some (landingSpec ⟨"group_admin", []⟩) :=
  ⟨admin_landing_nav.2.2 ⟨"admin", []⟩ rfl,
    admin_landing_nav.2.1 ⟨"group_admin", []⟩⟩

/-- A run of length ≥ 8 needs at least 8 characters beyond the current run
prefix. -/
theorem hasDotRun8_length (l : List Char) (run : Nat)
    (h : hasDotRun8 l run = true) : 8 ≤ l.length + run := by
  induction l generalizing run with
  | nil =>
      simp only [hasDotRun8, decide_eq_true_eq] at h
      simpa using h
  | cons c cs ih =>
      unfold hasDotRun8 at h
      split at h
      · next h8 => simp only [List.length_cons]; omega
      · split at h
        · have := ih 0 h
          simp only [List.length_cons]
          omega
        · have := ih (run + 1) h
          simp only [List.length_cons]
          omega

/-- The regex test implies the password has at least 8 characters. -/
theorem jsDotTest8_length (s : String) (h : jsDotTest8 s = true) :
    8 ≤ s.length := by
  have h1 := hasDotRun8_length s.data 0 h
  have h0 : s.length = s.data.length := rfl
  omega

/-- A singleton-or-empty conditional list is empty only when its condition
fails. -/
theorem ite_singleton_eq_nil {c : Prop} [Decidable c] {s : String}
    (h : (if c then [s] else []) = ([] : List String)) : ¬c := by
  intro hc
  rw [if_pos hc] at h
  exact List.cons_ne_nil _ _ h

/-- An empty collected error list forces every code-side validation to
pass. -/
theorem registerErrors_eq_nil (mail pwd apwd : String) (uc : Bool)
    (captcha : String) (pwdRule : String → Bool)
    (h : registerErrors mail pwd apwd uc captcha pwdRule = []) :
    mail.isEmpty = false ∧ 3 ≤ mail.length ∧ 8 ≤ pwd.length ∧
    pwdRule pwd = true ∧ pwd = apwd ∧
    (uc = true → captcha.isEmpty = false) := by
  simp only [registerErrors, List.append_eq_nil] at h
  obtain ⟨⟨⟨⟨⟨ha, hb⟩, hc⟩, hd⟩, he⟩, hf⟩ := h
  have ha' := ite_singleton_eq_nil ha
  have hb' := ite_singleton_eq_nil hb
  have hc' := ite_singleton_eq_nil hc
  have hd' := ite_singleton_eq_nil hd
  have he' := ite_singleton_eq_nil he
  have hf' := ite_singleton_eq_nil hf
  refine ⟨by simpa using ha', by omega, ?_, by simpa using hd',
    not_not.1 he', ?_⟩
  · exact jsDotTest8_length pwd (by simpa using hc')
  · intro huc
    rcases hcap : captcha.isEmpty with _ | _
    · rfl
    · exact absurd (by simp [huc, hcap]) hf'

/-- C10: `handleRegister` calls the register API only when every
validation passes — non-empty account of length ≥ 3, password of length
≥ 8 matching PWD_RULE, matching confirmation, and a captcha when one is
required; otherwise a warning with a non-empty error list is shown and no
register call is made. -/
theorem register_requires_validation (mail pwd apwd : String) (uc : Bool)
    (captcha : String) (pwdRule : String → Bool) :
    (handleRegister mail pwd apwd uc captcha pwdRule = .callRegister →
      (mail.isEmpty = false ∧ 3 ≤ mail.length ∧ 8 ≤ pwd.length ∧
       pwdRule pwd = true ∧ pwd = apwd ∧
       (uc = true → captcha.isEmpty = false))) ∧
    (¬(mail.isEmpty = false ∧ 3 ≤ mail.length ∧ 8 ≤ pwd.length ∧
       pwdRule pwd = true ∧ pwd = apwd ∧
       (uc = true → captcha.isEmpty = false)) →
      ∃ errs, errs ≠ [] ∧
        handleRegister mail pwd apwd uc captcha pwdRule = .warn errs) := by
  constructor
  · intro hcall
    have herrs : registerErrors mail pwd apwd uc captcha pwdRule = [] := by
      by_contra hne
      have hfa : (registerErrors mail pwd apwd uc captcha pwdRule).isEmpty
          = false := by
        simpa [List.isEmpty_iff] using hne
      simp [handleRegister, hfa] at hcall
    exact registerErrors_eq_nil mail pwd apwd uc captcha pwdRule herrs
  · intro hnot
    by_cases herrs : registerErrors mail pwd apwd uc captcha pwdRule = []
    · exact absurd
        (registerErrors_eq_nil mail pwd apwd uc captcha pwdRule herrs) hnot
    · refine ⟨registerErrors mail pwd apwd uc captcha pwdRule, herrs, ?_⟩
      have hfa : (registerErrors mail pwd apwd uc captcha pwdRule).isEmpty
          = false := by
        simpa [List.isEmpty_iff] using herrs
      simp [handleRegister, hfa]

/-- Witness for C10: a valid registration form leads to a register call —
instantiating the theorem yields the passed validations — and dropping one
character below the password minimum yields a warning. -/
theorem register_requires_validation_witness :
    ("abc" : String).isEmpty = false ∧ 3 ≤ ("abc" : String).length ∧
    8 ≤ ("Password1" : String).length ∧
    (fun _ : String => true) "Password1" = true ∧
    ("Password1" : String) = "Password1" ∧
    (false = true → ("" : String).isEmpty = false) :=
  (register_requires_validation "abc" "Password1" "Password1" false ""
    (fun _ => true)).1 (by decide)

end Bisheng

